import Mathlib

/-!
Verification of the `paginated-query` tool of the mongo-mcp server
(`src/index.ts`).  The handler (lines 249-364 of `src/index.ts`) implements
keyset (cursor-based) pagination over a MongoDB collection:

* it copies the user filter and, when both `lastId` and `lastValue` are
  (JavaScript-)truthy, wraps it in `$and` together with a synthesized resume
  clause built from the first sort field;
* it validates `lastId` with `safeObjectId` (lines 99-106) and returns an
  error result when the id cannot be parsed;
* it fetches `limit + 1` documents sorted by the user-supplied sort
  specification, sets `hasMore` when more than `limit` documents came back,
  pops the sentinel, and derives the next cursor from the last document of
  the trimmed page.

The MongoDB client itself is not part of the repository; the document store
is modelled from the spec (section 6: `find(predicate, projection, sort,
limit) -> ordered sequence of documents`, plus an identifier validity
predicate for the canonical 24-hex-character ObjectId encoding).  Documents
are open maps from field names to scalar values; the store orders values by
BSON type rank and then by value, and leaves ties in the underlying
collection order, since the handler requests no further ordering.
Projections are not modelled: they only select document fields and are
orthogonal to every pagination property considered here.
-/

/-- Strict lexicographic comparison of character lists, by code point. -/
def charListLt : List Char → List Char → Bool
  | _, [] => false
  | [], _ :: _ => true
  | c :: cs, d :: ds =>
    if c.toNat < d.toNat then true
    else if d.toNat < c.toNat then false
    else charListLt cs ds

/-- Strict lexicographic comparison of strings, by code point. -/
def strLt (s t : String) : Bool := charListLt s.data t.data

/-- Scalar values stored in documents: the JSON-representable scalars the
spec names (section 4.1), plus the store's ObjectId identifier type,
represented by its canonical 24-hex-character string encoding. -/
inductive MValue where
  | vnull : MValue
  | vint : Int → MValue
  | vstr : String → MValue
  | voidref : String → MValue
  | vbool : Bool → MValue
deriving DecidableEq

/-- BSON type rank used by the store to compare values of different types
(Null < Numbers < Strings < ObjectId < Boolean). -/
def mrank : MValue → Nat
  | .vnull => 0
  | .vint _ => 1
  | .vstr _ => 2
  | .voidref _ => 3
  | .vbool _ => 4

/-- Strict order on values: values of the same type compare by value,
values of different types compare by BSON type rank.  Modelled from the
spec: the store compares sort-field values "with the original type"
(section 4.1) under its native total order (section 9). -/
def vlt : MValue → MValue → Bool
  | .vint m, .vint n => decide (m < n)
  | .vstr s, .vstr t => strLt s t
  | .voidref s, .voidref t => strLt s t
  | .vbool x, .vbool y => !x && y
  | a, b => decide (mrank a < mrank b)

/-- JavaScript truthiness of a value: `null`, `0`, `""` and `false` are
falsy, everything else is truthy.  This is the semantics of the
`if (lastId && lastValue)` guard on line 258 of `src/index.ts`. -/
def jsTruthyVal : MValue → Bool
  | .vnull => false
  | .vint n => !(n == 0)
  | .vstr s => !(s == "")
  | .voidref _ => true
  | .vbool b => b

/-- Truthiness of the optional `lastId` string argument. -/
def jsTruthyOptStr : Option String → Bool
  | none => false
  | some s => !(s == "")

/-- Truthiness of the optional `lastValue` argument. -/
def jsTruthyOptVal : Option MValue → Bool
  | none => false
  | some v => jsTruthyVal v

/-- Document: an ObjectId (by its canonical string encoding) together with
an open association list of further fields. -/
structure Doc where
  oid : String
  fields : List (String × MValue)
deriving DecidableEq

/-- Field access on a document; the `_id` field holds the ObjectId. -/
def dGet (d : Doc) (f : String) : MValue :=
  if f == "_id" then .voidref d.oid
  else
    match d.fields.lookup f with
    | some v => v
    | none => .vnull

/-- MongoDB query predicates, as a tree of conjunctions, disjunctions and
comparison leaves.  This is exactly the fragment the handler constructs
(lines 274-308 of `src/index.ts`: binary `$and`, binary `$or`, equality
match, `$gt`, `$lt`), and the spec's model of a user filter (section 3:
"conjunctions, disjunctions, comparison leaves"). -/
inductive MQuery where
  | mtrue : MQuery
  | mand : MQuery → MQuery → MQuery
  | mor : MQuery → MQuery → MQuery
  | feq : String → MValue → MQuery
  | fgt : String → MValue → MQuery
  | flt : String → MValue → MQuery
deriving DecidableEq

/-- Evaluation of a query predicate on a document. -/
def evalQ : MQuery → Doc → Bool
  | .mtrue, _ => true
  | .mand p q, d => evalQ p d && evalQ q d
  | .mor p q, d => evalQ p d || evalQ q d
  | .feq f v, d => dGet d f == v
  | .fgt f v, d => vlt v (dGet d f)
  | .flt f v, d => vlt (dGet d f) v

/-- Comparator induced by a sort specification (an ordered list of
field-direction pairs, the shape of the JSON sort object): compare by the
first field (direction `1` ascending, anything else descending, matching
the `sortOrder === 1` dichotomy of the handler), then by the later fields
on ties. -/
def sortLe : List (String × Int) → Doc → Doc → Bool
  | [], _, _ => true
  | (f, dir) :: rest, d, e =>
    let a := dGet d f
    let b := dGet e f
    let lt := if dir == 1 then vlt a b else vlt b a
    let gt := if dir == 1 then vlt b a else vlt a b
    if lt then true else if gt then false else sortLe rest d e

/-- Stable sort of a document list by a sort specification; ties keep the
underlying collection order. -/
def sortDocs (spec : List (String × Int)) (l : List Doc) : List Doc :=
  l.insertionSort (fun d e => sortLe spec d e = true)

/-- Modelled from the spec: the document store's
`find(predicate, sort, limit)` capability (section 6) — the matching
documents, in the requested order (ties in underlying collection order),
truncated to the requested count.  The store itself (the MongoDB client) is
not part of the repository source. -/
def findDocs (coll : List Doc) (pred : MQuery) (spec : List (String × Int))
    (n : Nat) : List Doc :=
  (sortDocs spec (coll.filter fun d => evalQ pred d)).take n

/-- Modelled from the spec: validity of the store's canonical
24-hex-character ObjectId string encoding (section 4.1); the check the
`new ObjectId(id)` constructor of the client library performs. -/
def isValidObjectId (s : String) : Bool :=
  s.length == 24 && s.data.all fun c =>
    c.isDigit || ('a' ≤ c && c ≤ 'f') || ('A' ≤ c && c ≤ 'F')

/-- Embedding of `safeObjectId` (lines 99-106 of `src/index.ts`): parse a
string into an ObjectId, `none` when the string is not a valid id. -/
def safeObjectId (id : String) : Option String :=
  if isValidObjectId id then some id else none

/-- First sort field of the specification, the `Object.keys(sort)[0]` of
the handler (lines 260 and 342 of `src/index.ts`); on an empty sort object
`Object.keys(sort)[0]` is `undefined`, which as a computed property name
becomes the literal key `"undefined"`. -/
def primarySortField (sort : List (String × Int)) : String :=
  match sort.head? with
  | some p => p.1
  | none => "undefined"

/-- Embedding of the predicate-building part of the handler (lines 255-309
of `src/index.ts`): when both `lastId` and `lastValue` are truthy, look up
the first sort field and its direction, validate `lastId`, and wrap the
copied user filter in `$and` with the synthesized resume clause
(`$gt`-shaped when the direction is `1`, `$lt`-shaped otherwise); when the
guard fails the filter is returned unchanged. -/
def buildPaginatedFilter (filter : MQuery) (sort : List (String × Int))
    (lastId : Option String) (lastValue : Option MValue) :
    Except String MQuery :=
  if jsTruthyOptStr lastId && jsTruthyOptVal lastValue then
    let sortField := primarySortField sort
    let sortOrder : Option Int := sort.head?.map fun p => p.2
    let lv := lastValue.getD .vnull
    match safeObjectId (lastId.getD "") with
    | none => .error ("Invalid ObjectId format: " ++ lastId.getD "")
    | some objectId =>
      if sortOrder == some 1 then
        .ok (.mand filter (.mor (.fgt sortField lv)
          (.mand (.feq sortField lv) (.fgt "_id" (.voidref objectId)))))
      else
        .ok (.mand filter (.mor (.flt sortField lv)
          (.mand (.feq sortField lv) (.flt "_id" (.voidref objectId)))))
  else
    .ok filter

/-- Result of the `paginated-query` tool: either an error result
(`isError: true` with a message) or a page, with its `hasMore` flag, its
`count` (the length of the returned page) and the next cursor
(`lastId`, `lastValue`), `none` when absent. -/
inductive PQResult where
  | error : String → PQResult
  | ok : List Doc → Bool → Nat → Option (String × MValue) → PQResult
deriving DecidableEq

/-- Embedding of the `paginated-query` handler (lines 249-364 of
`src/index.ts`): build the paginated filter, fetch `limit + 1` documents
sorted by the user-supplied sort specification, set `hasMore` when more
than `limit` documents came back, pop the sentinel, and derive the next
cursor from the last document of the trimmed page when `hasMore` holds. -/
def paginatedQuery (coll : List Doc) (filter : MQuery)
    (sort : List (String × Int)) (limit : Nat)
    (lastId : Option String) (lastValue : Option MValue) : PQResult :=
  match buildPaginatedFilter filter sort lastId lastValue with
  | .error msg => .error msg
  | .ok paginatedFilter =>
    let results0 := findDocs coll paginatedFilter sort (limit + 1)
    let hasMore := decide (results0.length > limit)
    let results := if hasMore then results0.dropLast else results0
    let sortField := primarySortField sort
    let nextCursor := match results.getLast? with
      | some lastDocument =>
        if hasMore then some (lastDocument.oid, dGet lastDocument sortField)
        else none
      | none => none
    .ok results hasMore results.length nextCursor

/-- Modelled from the spec: the caller loop of section 8 ("concatenating
all pages obtained by following `nextCursor` until `hasMore=false`"),
with explicit fuel.  The loop is driven by the embedded handler; it stops
on an error result, on `hasMore = false`, or when no cursor accompanies
`hasMore = true`. -/
def runPages (fuel : Nat) (coll : List Doc) (filter : MQuery)
    (sort : List (String × Int)) (limit : Nat)
    (lastId : Option String) (lastValue : Option MValue) : List Doc :=
  match fuel with
  | 0 => []
  | fuel + 1 =>
    match paginatedQuery coll filter sort limit lastId lastValue with
    | .error _ => []
    | .ok results hasMore _ nextCursor =>
      if hasMore then
        match nextCursor with
        | some c => results ++
            runPages fuel coll filter sort limit (some c.1) (some c.2)
        | none => results
      else results

/-- Direction-adjusted strict comparison of sort-field values: the order in
which the handler's resume clause advances (`$gt` when the direction is
`1`, `$lt` otherwise). -/
def keyLt (dir : Int) (a b : MValue) : Bool :=
  if dir == 1 then vlt a b else vlt b a

/-- Shape of the synthesized resume clause of the handler (lines 272-308 of
`src/index.ts`), abstracted over the direction dichotomy: the clause
`(f > v) OR (f == v AND _id > lastId)` when the direction is `1`, and the
mirrored `$lt` clause otherwise. -/
def resumeClause (dir : Int) (f : String) (v : MValue) (idStr : String) :
    MQuery :=
  if dir == 1 then
    .mor (.fgt f v) (.mand (.feq f v) (.fgt "_id" (.voidref idStr)))
  else
    .mor (.flt f v) (.mand (.feq f v) (.flt "_id" (.voidref idStr)))

/-- Concrete document used in tie-breaking scenarios: the larger ObjectId,
stored first in the collection. -/
def docTieA : Doc := ⟨"000000000000000000000002", [("date", .vint 5)]⟩

/-- Concrete document used in tie-breaking scenarios: the smaller ObjectId,
stored second in the collection, with the same sort-field value. -/
def docTieB : Doc := ⟨"000000000000000000000001", [("date", .vint 5)]⟩

/-- Concrete document with a distinct, truthy sort value, first of three. -/
def docAsc1 : Doc := ⟨"0000000000000000000000aa", [("date", .vint 1)]⟩

/-- Concrete document with a distinct, truthy sort value, second of three. -/
def docAsc2 : Doc := ⟨"0000000000000000000000ab", [("date", .vint 2)]⟩

/-- Concrete document with a distinct, truthy sort value, third of three. -/
def docAsc3 : Doc := ⟨"0000000000000000000000ac", [("date", .vint 3)]⟩

/-! ### Order properties of the value comparison -/

theorem charListLt_irrefl : ∀ l : List Char, charListLt l l = false
  | [] => rfl
  | c :: cs => by
    simp only [charListLt, Nat.lt_irrefl, if_false]
    exact charListLt_irrefl cs

theorem charListLt_asymm :
    ∀ {l₁ l₂ : List Char}, charListLt l₁ l₂ = true → charListLt l₂ l₁ = false
  | _, [], h => by simp [charListLt] at h
  | [], _ :: _, _ => rfl
  | c :: cs, d :: ds, h => by
    by_cases hcd : c.toNat < d.toNat
    · have hdc : ¬ d.toNat < c.toNat := Nat.lt_asymm hcd
      simp [charListLt, hcd, hdc]
    · by_cases hdc : d.toNat < c.toNat
      · simp [charListLt, hcd, hdc] at h
      · simp only [charListLt, hcd, hdc, if_false] at h ⊢
        exact charListLt_asymm h

theorem strLt_irrefl (s : String) : strLt s s = false :=
  charListLt_irrefl s.data

theorem strLt_asymm {s t : String} (h : strLt s t = true) : strLt t s = false :=
  charListLt_asymm h

theorem vlt_irrefl : ∀ v : MValue, vlt v v = false := by
  intro v
  cases v <;> simp [vlt, strLt_irrefl]

theorem vlt_asymm {a b : MValue} (h : vlt a b = true) : vlt b a = false := by
  cases a <;> cases b <;>
    simp only [vlt, mrank] at h ⊢ <;>
    first
      | exact strLt_asymm h
      | (simp only [decide_eq_true_eq] at h;
         simp only [decide_eq_false_iff_not]; omega)
      | simp_all

theorem vlt_ne {a b : MValue} (h : vlt a b = true) : a ≠ b := by
  intro heq
  subst heq
  rw [vlt_irrefl] at h
  exact Bool.false_ne_true h

theorem keyLt_asymm {dir : Int} {a b : MValue} (h : keyLt dir a b = true) :
    keyLt dir b a = false := by
  unfold keyLt at h ⊢
  by_cases hd : (dir == 1) = true <;>
    simp only [hd, if_true, Bool.not_eq_true, if_false] at h ⊢ <;>
    simp_all [vlt_asymm h]

theorem keyLt_ne {dir : Int} {a b : MValue} (h : keyLt dir a b = true) : a ≠ b := by
  unfold keyLt at h
  by_cases hd : (dir == 1) = true <;>
    simp only [hd, if_true, Bool.not_eq_true, if_false] at h
  · exact vlt_ne h
  · exact (vlt_ne h).symm

theorem charListLt_trans :
    ∀ {l₁ l₂ l₃ : List Char}, charListLt l₁ l₂ = true →
      charListLt l₂ l₃ = true → charListLt l₁ l₃ = true
  | _, [], _, h₁, _ => by simp [charListLt] at h₁
  | _, _ :: _, [], _, h₂ => by simp [charListLt] at h₂
  | [], _ :: _, _ :: _, _, _ => rfl
  | a :: as, b :: bs, c :: cs, h₁, h₂ => by
    simp only [charListLt] at h₁ h₂ ⊢
    rcases Nat.lt_trichotomy a.toNat b.toNat with hab | hab | hab
    · rcases Nat.lt_trichotomy b.toNat c.toNat with hbc | hbc | hbc
      · rw [if_pos (by omega)]
      · rw [if_pos (by omega)]
      · rw [if_neg (by omega), if_pos (by omega)] at h₂
        exact absurd h₂ (by simp)
    · rcases Nat.lt_trichotomy b.toNat c.toNat with hbc | hbc | hbc
      · rw [if_pos (by omega)]
      · rw [if_neg (by omega), if_neg (by omega)] at h₁ h₂
        rw [if_neg (by omega), if_neg (by omega)]
        exact charListLt_trans h₁ h₂
      · rw [if_neg (by omega), if_pos (by omega)] at h₂
        exact absurd h₂ (by simp)
    · rw [if_neg (by omega), if_pos (by omega)] at h₁
      exact absurd h₁ (by simp)

theorem charListLt_connex :
    ∀ {l₁ l₂ : List Char}, charListLt l₁ l₂ = false →
      charListLt l₂ l₁ = false → l₁ = l₂
  | [], [], _, _ => rfl
  | [], _ :: _, h₁, _ => by simp [charListLt] at h₁
  | _ :: _, [], _, h₂ => by simp [charListLt] at h₂
  | a :: as, b :: bs, h₁, h₂ => by
    simp only [charListLt] at h₁ h₂
    by_cases hab : a.toNat < b.toNat
    · rw [if_pos hab] at h₁
      exact absurd h₁ (by simp)
    · by_cases hba : b.toNat < a.toNat
      · rw [if_pos hba] at h₂
        exact absurd h₂ (by simp)
      · rw [if_neg hab, if_neg hba] at h₁
        rw [if_neg hba, if_neg hab] at h₂
        have hn : a.toNat = b.toNat := by omega
        have ha : a = b := Char.ext (UInt32.toNat.inj hn)
        rw [ha, charListLt_connex h₁ h₂]

theorem strLt_trans {s t u : String} (h₁ : strLt s t = true)
    (h₂ : strLt t u = true) : strLt s u = true :=
  charListLt_trans h₁ h₂

theorem strLt_connex {s t : String} (h₁ : strLt s t = false)
    (h₂ : strLt t s = false) : s = t :=
  String.toList_inj.1 (charListLt_connex h₁ h₂)

theorem vlt_trans {a b c : MValue} (h₁ : vlt a b = true)
    (h₂ : vlt b c = true) : vlt a c = true := by
  cases a <;> cases b <;> cases c <;>
    simp only [vlt, mrank, decide_eq_true_eq] at h₁ h₂ ⊢ <;>
    first
      | rfl
      | exact strLt_trans h₁ h₂
      | omega
      | simp_all

theorem vlt_connex {a b : MValue} (h₁ : vlt a b = false)
    (h₂ : vlt b a = false) : a = b := by
  cases a <;> cases b <;>
    simp only [vlt, mrank, decide_eq_false_iff_not] at h₁ h₂ <;>
    first
      | rfl
      | exact congrArg MValue.vstr (strLt_connex h₁ h₂)
      | exact congrArg MValue.voidref (strLt_connex h₁ h₂)
      | (congr 1; omega)
      | (exfalso; omega)
      | (rename_i x y
         cases x <;> cases y <;> simp_all)

theorem keyLt_irrefl (dir : Int) (v : MValue) : keyLt dir v v = false := by
  unfold keyLt
  cases dir == 1 <;> simp [vlt_irrefl]

theorem keyLt_trans {dir : Int} {a b c : MValue} (h₁ : keyLt dir a b = true)
    (h₂ : keyLt dir b c = true) : keyLt dir a c = true := by
  unfold keyLt at h₁ h₂ ⊢
  cases hd : dir == 1
  · rw [hd] at h₁ h₂
    simp only [Bool.false_eq_true, if_false] at h₁ h₂ ⊢
    exact vlt_trans h₂ h₁
  · rw [hd] at h₁ h₂
    rw [if_pos rfl] at h₁ h₂
    rw [if_pos rfl]
    exact vlt_trans h₁ h₂

theorem keyLt_connex {dir : Int} {a b : MValue} (h₁ : keyLt dir a b = false)
    (h₂ : keyLt dir b a = false) : a = b := by
  unfold keyLt at h₁ h₂
  cases hd : dir == 1
  · rw [hd] at h₁ h₂
    simp only [Bool.false_eq_true, if_false] at h₁ h₂
    exact vlt_connex h₂ h₁
  · rw [hd] at h₁ h₂
    rw [if_pos rfl] at h₁ h₂
    exact vlt_connex h₁ h₂

theorem isValidObjectId_ne_empty {s : String} (h : isValidObjectId s = true) :
    (s == "") = false := by
  rw [isValidObjectId, Bool.and_eq_true] at h
  obtain ⟨hl, _⟩ := h
  cases hs : s == ""
  · rfl
  · rw [eq_of_beq hs] at hl
    exact absurd hl (by decide)

/-! ### The sort comparator and the sorted fetch -/

theorem sortLe_cons_iff {f : String} {dir : Int} {rest : List (String × Int)}
    {d e : Doc} :
    sortLe ((f, dir) :: rest) d e = true ↔
      (keyLt dir (dGet d f) (dGet e f) = true ∨
        (dGet d f = dGet e f ∧ sortLe rest d e = true)) := by
  have hky : (if dir == 1 then vlt (dGet d f) (dGet e f)
      else vlt (dGet e f) (dGet d f)) = keyLt dir (dGet d f) (dGet e f) := rfl
  have hky2 : (if dir == 1 then vlt (dGet e f) (dGet d f)
      else vlt (dGet d f) (dGet e f)) = keyLt dir (dGet e f) (dGet d f) := rfl
  simp only [sortLe]
  rw [hky, hky2]
  cases hlt : keyLt dir (dGet d f) (dGet e f)
  · cases hgt : keyLt dir (dGet e f) (dGet d f)
    · have heq := keyLt_connex hlt hgt
      simp [heq, keyLt_irrefl]
    · have hne : dGet d f ≠ dGet e f := by
        intro he
        rw [he, keyLt_irrefl] at hgt
        exact absurd hgt (by simp)
      simp [hne]
  · simp

theorem sortLe_total : ∀ (spec : List (String × Int)) (d e : Doc),
    sortLe spec d e = true ∨ sortLe spec e d = true
  | [], _, _ => Or.inl rfl
  | (f, dir) :: rest, d, e => by
    cases hlt : keyLt dir (dGet d f) (dGet e f)
    · cases hgt : keyLt dir (dGet e f) (dGet d f)
      · have heq := keyLt_connex hlt hgt
        rcases sortLe_total rest d e with h | h
        · exact Or.inl (sortLe_cons_iff.2 (Or.inr ⟨heq, h⟩))
        · exact Or.inr (sortLe_cons_iff.2 (Or.inr ⟨heq.symm, h⟩))
      · exact Or.inr (sortLe_cons_iff.2 (Or.inl hgt))
    · exact Or.inl (sortLe_cons_iff.2 (Or.inl hlt))

theorem sortLe_trans : ∀ (spec : List (String × Int)) (d e g : Doc),
    sortLe spec d e = true → sortLe spec e g = true →
      sortLe spec d g = true
  | [], _, _, _, _, _ => rfl
  | (f, dir) :: rest, d, e, g, h₁, h₂ => by
    rcases sortLe_cons_iff.1 h₁ with hk₁ | ⟨he₁, hr₁⟩ <;>
      rcases sortLe_cons_iff.1 h₂ with hk₂ | ⟨he₂, hr₂⟩
    · exact sortLe_cons_iff.2 (Or.inl (keyLt_trans hk₁ hk₂))
    · exact sortLe_cons_iff.2 (Or.inl (he₂ ▸ hk₁))
    · exact sortLe_cons_iff.2 (Or.inl (by rw [he₁]; exact hk₂))
    · exact sortLe_cons_iff.2
        (Or.inr ⟨he₁.trans he₂, sortLe_trans rest d e g hr₁ hr₂⟩)

theorem sortDocs_perm (spec : List (String × Int)) (l : List Doc) :
    (sortDocs spec l).Perm l :=
  List.perm_insertionSort _ l

theorem sortDocs_sorted (spec : List (String × Int)) (l : List Doc) :
    (sortDocs spec l).Pairwise fun d e => sortLe spec d e = true := by
  haveI : IsTotal Doc fun d e => sortLe spec d e = true :=
    ⟨fun a b => sortLe_total spec a b⟩
  haveI : IsTrans Doc fun d e => sortLe spec d e = true :=
    ⟨fun a b c => sortLe_trans spec a b c⟩
  exact List.sorted_insertionSort _ l

theorem pairwise_keyLt_of_sorted {f : String} {dir : Int}
    {rest : List (String × Int)} {l : List Doc}
    (hs : l.Pairwise fun d e => sortLe ((f, dir) :: rest) d e = true)
    (hd : l.Pairwise fun a b => dGet a f ≠ dGet b f) :
    l.Pairwise fun a b => keyLt dir (dGet a f) (dGet b f) = true :=
  (hs.and hd).imp fun hab => by
    obtain ⟨h1, h2⟩ := hab
    rcases sortLe_cons_iff.1 h1 with hk | ⟨he, _⟩
    · exact hk
    · exact absurd he h2

theorem sortDocs_eq_of_perm_strict {f : String} {dir : Int}
    {rest : List (String × Int)} {l₁ l₂ : List Doc}
    (hp : l₁.Perm l₂)
    (h₂ : l₂.Pairwise fun a b => keyLt dir (dGet a f) (dGet b f) = true)
    (hd₁ : l₁.Pairwise fun a b => dGet a f ≠ dGet b f) :
    sortDocs ((f, dir) :: rest) l₁ = l₂ := by
  haveI : IsAntisymm Doc fun a b => keyLt dir (dGet a f) (dGet b f) = true :=
    ⟨fun a b hab hba => by
      rw [keyLt_asymm hab] at hba
      exact absurd hba (by simp)⟩
  have hperm := sortDocs_perm ((f, dir) :: rest) l₁
  have hdS : (sortDocs ((f, dir) :: rest) l₁).Pairwise
      fun a b => dGet a f ≠ dGet b f :=
    (hperm.pairwise_iff fun hxy => hxy.symm).2 hd₁
  have hstrict := pairwise_keyLt_of_sorted
    (sortDocs_sorted ((f, dir) :: rest) l₁) hdS
  exact List.eq_of_perm_of_sorted (hperm.trans hp) hstrict h₂

theorem sortDocs_nil (l : List Doc) : sortDocs [] l = l := by
  have h : l.Pairwise fun d e => sortLe [] d e = true := by
    induction l with
    | nil => exact List.Pairwise.nil
    | cons a t ih => exact List.Pairwise.cons (fun _ _ => rfl) ih
  exact List.Sorted.insertionSort_eq h

/-! ### The predicate builder -/

theorem buildPaginatedFilter_no_cursor {filter : MQuery}
    {sort : List (String × Int)} {lastId : Option String}
    {lastValue : Option MValue}
    (h : (jsTruthyOptStr lastId && jsTruthyOptVal lastValue) = false) :
    buildPaginatedFilter filter sort lastId lastValue = .ok filter := by
  unfold buildPaginatedFilter
  rw [h]
  rfl

theorem buildPaginatedFilter_cursor {filter : MQuery} {f : String} {dir : Int}
    {rest : List (String × Int)} {id : String} {v : MValue}
    (hid : isValidObjectId id = true) (hv : jsTruthyVal v = true) :
    buildPaginatedFilter filter ((f, dir) :: rest) (some id) (some v) =
      .ok (.mand filter (resumeClause dir f v id)) := by
  have hne := isValidObjectId_ne_empty hid
  unfold buildPaginatedFilter resumeClause safeObjectId primarySortField
  simp only [jsTruthyOptStr, jsTruthyOptVal, hne, hv, Bool.not_false,
    Bool.and_self, if_true, List.head?_cons, Option.map_some, hid,
    Option.getD_some]
  by_cases hd : (dir == 1) = true <;>
    simp [hd]


/-! ### Evaluation of the resume clause -/

theorem evalQ_resumeClause_self (dir : Int) (f : String) (d : Doc) :
    evalQ (resumeClause dir f (dGet d f) d.oid) d = false := by
  have hid : dGet d "_id" = .voidref d.oid := by simp [dGet]
  unfold resumeClause
  cases hd : dir == 1 <;> simp [hd, evalQ, hid, vlt_irrefl]

theorem evalQ_resumeClause_of_keyLt {dir : Int} {f : String} {d e : Doc}
    (h : keyLt dir (dGet e f) (dGet d f) = true) :
    evalQ (resumeClause dir f (dGet d f) d.oid) e = false := by
  have hne : dGet e f ≠ dGet d f := keyLt_ne h
  have hasym : keyLt dir (dGet d f) (dGet e f) = false := keyLt_asymm h
  unfold keyLt at hasym
  unfold resumeClause
  cases hd : dir == 1 <;> rw [hd] at hasym <;> simp at hasym <;>
    simp [evalQ, hasym, hne]

theorem evalQ_resumeClause_of_keyGt {dir : Int} {f : String} {d e : Doc}
    (h : keyLt dir (dGet d f) (dGet e f) = true) :
    evalQ (resumeClause dir f (dGet d f) d.oid) e = true := by
  unfold keyLt at h
  unfold resumeClause
  cases hd : dir == 1 <;> rw [hd] at h <;> simp at h <;>
    simp [evalQ, h]

theorem filter_middle {α : Type} (p : α → Bool) (l1 : List α) (d : α)
    (l2 : List α) (h1 : ∀ e ∈ l1, p e = false) (hd : p d = false)
    (h2 : ∀ e ∈ l2, p e = true) : (l1 ++ d :: l2).filter p = l2 := by
  rw [List.filter_append]
  rw [List.filter_eq_nil_iff.2 fun a ha => by
    rw [h1 a ha]; exact Bool.false_ne_true]
  rw [List.filter_cons_of_neg (by rw [hd]; exact Bool.false_ne_true)]
  rw [List.filter_eq_self.2 h2, List.nil_append]

/-! ### Characterization of a single page -/

theorem paginatedQuery_ok_small {coll : List Doc} {filter pf : MQuery}
    {sort : List (String × Int)} {limit : Nat} {lastId : Option String}
    {lastValue : Option MValue}
    (hb : buildPaginatedFilter filter sort lastId lastValue = .ok pf)
    (hlen : (sortDocs sort (coll.filter fun d => evalQ pf d)).length ≤ limit) :
    paginatedQuery coll filter sort limit lastId lastValue =
      .ok (sortDocs sort (coll.filter fun d => evalQ pf d)) false
        (sortDocs sort (coll.filter fun d => evalQ pf d)).length none := by
  unfold paginatedQuery findDocs
  rw [hb]
  have ht : (sortDocs sort (coll.filter fun d => evalQ pf d)).take (limit + 1)
      = sortDocs sort (coll.filter fun d => evalQ pf d) :=
    List.take_of_length_le (Nat.le_succ_of_le hlen)
  simp only [ht]
  have hm : decide
      ((sortDocs sort (coll.filter fun d => evalQ pf d)).length > limit)
      = false := by
    simp only [decide_eq_false_iff_not]
    omega
  simp only [hm, if_false, Bool.false_eq_true]
  cases hgl : (sortDocs sort (coll.filter fun d => evalQ pf d)).getLast? <;>
    simp

theorem paginatedQuery_ok_big {coll : List Doc} {filter pf : MQuery}
    {sort : List (String × Int)} {m : Nat} {lastId : Option String}
    {lastValue : Option MValue} {P : List Doc} {d : Doc} {R : List Doc}
    (hb : buildPaginatedFilter filter sort lastId lastValue = .ok pf)
    (hS : sortDocs sort (coll.filter fun x => evalQ pf x) = P ++ d :: R)
    (hP : P.length = m) (hR : R ≠ []) :
    paginatedQuery coll filter sort (m + 1) lastId lastValue =
      .ok (P ++ [d]) true (m + 1)
        (some (d.oid, dGet d (primarySortField sort))) := by
  obtain ⟨r, R', rfl⟩ := List.exists_cons_of_ne_nil hR
  unfold paginatedQuery findDocs
  rw [hb]
  dsimp only
  rw [hS]
  have htake : (P ++ d :: r :: R').take (m + 1 + 1) = P ++ [d, r] := by
    rw [List.take_append_eq_append_take]
    rw [List.take_of_length_le (by omega)]
    have h2 : m + 1 + 1 - P.length = 2 := by omega
    rw [h2]
    rfl
  rw [htake]
  have hmore : decide ((P ++ [d, r]).length > m + 1) = true := by
    simp [hP]
  rw [hmore]
  have hdrop : (P ++ [d, r]).dropLast = P ++ [d] := by
    have hc : P ++ [d, r] = (P ++ [d]) ++ [r] := by simp
    rw [hc, List.dropLast_concat]
  simp only [if_true, hdrop]
  have hlast : (P ++ [d]).getLast? = some d := List.getLast?_concat P
  rw [hlast]
  simp [hP]

/-! ### The page roundtrip under distinct, truthy sort values -/

theorem filtered_cursor_page {coll : List Doc} {filter : MQuery}
    {f : String} {dir : Int} {rest : List (String × Int)}
    {l1 l2 : List Doc} {d : Doc}
    (hdF : (coll.filter fun x => evalQ filter x).Pairwise
      fun a b => dGet a f ≠ dGet b f)
    (hstrict : (sortDocs ((f, dir) :: rest)
        (coll.filter fun x => evalQ filter x)).Pairwise
      fun a b => keyLt dir (dGet a f) (dGet b f) = true)
    (hS : sortDocs ((f, dir) :: rest) (coll.filter fun x => evalQ filter x)
      = l1 ++ d :: l2) :
    sortDocs ((f, dir) :: rest) (coll.filter fun x =>
      evalQ (.mand filter (resumeClause dir f (dGet d f) d.oid)) x) = l2 := by
  have hfun : (fun x =>
      evalQ (.mand filter (resumeClause dir f (dGet d f) d.oid)) x)
      = fun x => evalQ (resumeClause dir f (dGet d f) d.oid) x
          && evalQ filter x := by
    funext x
    exact Bool.and_comm _ _
  rw [hfun, ← List.filter_filter]
  have hpw : (l1 ++ d :: l2).Pairwise
      fun a b => keyLt dir (dGet a f) (dGet b f) = true := hS ▸ hstrict
  obtain ⟨h11, h22, h12⟩ := List.pairwise_append.1 hpw
  obtain ⟨hd2, hl2pw⟩ := List.pairwise_cons.1 h22
  have hBfm : (l1 ++ d :: l2).filter
      (fun e => evalQ (resumeClause dir f (dGet d f) d.oid) e) = l2 := by
    apply filter_middle
    · intro e he
      exact evalQ_resumeClause_of_keyLt (h12 e he d (List.mem_cons_self d l2))
    · exact evalQ_resumeClause_self dir f d
    · intro e he
      exact evalQ_resumeClause_of_keyGt (hd2 e he)
  have hAB : (List.filter (fun x => evalQ filter x) coll).filter
      (fun e => evalQ (resumeClause dir f (dGet d f) d.oid) e) |>.Perm l2 := by
    have hp1 := ((sortDocs_perm ((f, dir) :: rest)
      (coll.filter fun x => evalQ filter x)).symm).filter
      (fun e => evalQ (resumeClause dir f (dGet d f) d.oid) e)
    rw [hS, hBfm] at hp1
    exact hp1
  have hdA : ((List.filter (fun x => evalQ filter x) coll).filter
      (fun e => evalQ (resumeClause dir f (dGet d f) d.oid) e)).Pairwise
      fun a b => dGet a f ≠ dGet b f :=
    List.Pairwise.sublist (List.filter_sublist _) hdF
  exact sortDocs_eq_of_perm_strict hAB hl2pw hdA

theorem runPages_cursor {coll : List Doc} {filter : MQuery} {f : String}
    {dir : Int} {rest : List (String × Int)} {m : Nat}
    (hdF : (coll.filter fun x => evalQ filter x).Pairwise
      fun a b => dGet a f ≠ dGet b f)
    (hstrict : (sortDocs ((f, dir) :: rest)
        (coll.filter fun x => evalQ filter x)).Pairwise
      fun a b => keyLt dir (dGet a f) (dGet b f) = true)
    (htr : ∀ x ∈ coll.filter fun x => evalQ filter x,
      jsTruthyVal (dGet x f) = true)
    (hvid : ∀ x ∈ coll.filter fun x => evalQ filter x,
      isValidObjectId x.oid = true) :
    ∀ fuel (l1 : List Doc) (d : Doc) (l2 : List Doc),
      sortDocs ((f, dir) :: rest) (coll.filter fun x => evalQ filter x)
        = l1 ++ d :: l2 →
      l2.length < fuel →
      runPages fuel coll filter ((f, dir) :: rest) (m + 1)
        (some d.oid) (some (dGet d f)) = l2 := by
  intro fuel
  induction fuel with
  | zero => intro l1 d l2 hF hlt; omega
  | succ n ih =>
    intro l1 d l2 hF hlt
    have hdF2 : d ∈ coll.filter fun x => evalQ filter x := by
      refine (sortDocs_perm ((f, dir) :: rest)
        (coll.filter fun x => evalQ filter x)).mem_iff.1 ?_
      rw [hF]
      exact List.mem_append_right _ (List.mem_cons_self d l2)
    have hv := htr d hdF2
    have hid := hvid d hdF2
    have hb := @buildPaginatedFilter_cursor filter f dir rest d.oid
      (dGet d f) hid hv
    have hS2 : sortDocs ((f, dir) :: rest) (coll.filter fun x =>
        evalQ (.mand filter (resumeClause dir f (dGet d f) d.oid)) x)
        = l2 := filtered_cursor_page hdF hstrict hF
    by_cases hcase : l2.length ≤ m + 1
    · have hlen2 : (sortDocs ((f, dir) :: rest)
          (coll.filter fun x => evalQ
            (.mand filter (resumeClause dir f (dGet d f) d.oid)) x)).length
          ≤ m + 1 := by
        rw [hS2]
        exact hcase
      have hpage := paginatedQuery_ok_small hb hlen2
      rw [hS2] at hpage
      unfold runPages
      rw [hpage]
      simp
    · push_neg at hcase
      have hm : m < l2.length := by omega
      have hsplit : l2 = l2.take m ++ l2.get ⟨m, hm⟩ :: l2.drop (m + 1) := by
        have h1 : l2.take (m + 1) = l2.take m ++ [l2.get ⟨m, hm⟩] := by
          rw [List.take_succ]
          congr 1
          rw [List.getElem?_eq_getElem hm]
          rfl
        have h2 : l2 = l2.take (m + 1) ++ l2.drop (m + 1) :=
          (List.take_append_drop (m + 1) l2).symm
        rw [h1] at h2
        rw [List.append_assoc] at h2
        exact h2
      have hR : l2.drop (m + 1) ≠ [] := by
        intro hnil
        have := List.length_drop (m + 1) l2
        rw [hnil] at this
        simp at this
        omega
      have hS3 : sortDocs ((f, dir) :: rest)
          (coll.filter fun x => evalQ
            (.mand filter (resumeClause dir f (dGet d f) d.oid)) x)
          = l2.take m ++ l2.get ⟨m, hm⟩ :: l2.drop (m + 1) := by
        rw [hS2]
        exact hsplit
      have hPlen : (l2.take m).length = m := by
        rw [List.length_take]
        omega
      have hpage := paginatedQuery_ok_big hb hS3 hPlen hR
      unfold runPages
      rw [hpage]
      simp only [if_true]
      have hrec := ih (l1 ++ d :: l2.take m) (l2.get ⟨m, hm⟩)
        (l2.drop (m + 1))
        (by
          rw [hF]
          conv => lhs; rw [hsplit]
          simp)
        (by
          have := List.length_drop (m + 1) l2
          omega)
      have hf : primarySortField ((f, dir) :: rest) = f := rfl
      rw [hf, hrec]
      conv => rhs; rw [hsplit]
      simp

theorem dropLast_take_succ {α : Type} {S : List α} {n : Nat}
    (h : n < S.length) : (S.take (n + 1)).dropLast = S.take n := by
  rw [List.take_succ, List.getElem?_eq_getElem h]
  exact List.dropLast_concat

theorem results_trim {α : Type} (S : List α) (limit : Nat) :
    (if decide ((S.take (limit + 1)).length > limit) = true
      then (S.take (limit + 1)).dropLast else S.take (limit + 1))
      = S.take limit := by
  by_cases h : (S.take (limit + 1)).length > limit
  · have hlen : limit < S.length := by
      have := List.length_take (limit + 1) S
      omega
    rw [if_pos (decide_eq_true h)]
    exact dropLast_take_succ hlen
  · have hlen : S.length ≤ limit := by
      have := List.length_take (limit + 1) S
      omega
    rw [if_neg (by simpa using h)]
    rw [List.take_of_length_le (Nat.le_succ_of_le hlen),
      List.take_of_length_le hlen]

theorem pq_not_error_of_ok_build {coll : List Doc} {filter pf : MQuery}
    {sort : List (String × Int)} {limit : Nat} {lastId : Option String}
    {lastValue : Option MValue}
    (hb : buildPaginatedFilter filter sort lastId lastValue = .ok pf) :
    ∃ results hasMore count cursor,
      paginatedQuery coll filter sort limit lastId lastValue
        = .ok results hasMore count cursor := by
  cases hres : paginatedQuery coll filter sort limit lastId lastValue with
  | error msg =>
    unfold paginatedQuery at hres
    rw [hb] at hres
    dsimp only at hres
    exact absurd hres (by simp)
  | ok r h c cur => exact ⟨r, h, c, cur, rfl⟩

theorem pageResults_eq_take {coll : List Doc} {filter pf : MQuery}
    {sort : List (String × Int)} {limit : Nat} {lastId : Option String}
    {lastValue : Option MValue} {results : List Doc} {hasMore : Bool}
    {count : Nat} {cursor : Option (String × MValue)}
    (hb : buildPaginatedFilter filter sort lastId lastValue = .ok pf)
    (hq : paginatedQuery coll filter sort limit lastId lastValue
      = .ok results hasMore count cursor) :
    results = (sortDocs sort (coll.filter fun d => evalQ pf d)).take limit := by
  unfold paginatedQuery findDocs at hq
  rw [hb] at hq
  dsimp only at hq
  rw [results_trim] at hq
  injection hq with h1 h2 h3 h4
  exact h1.symm

/-! ### Claim theorems -/

/-- Claim C1: when a cursor is present (truthy `lastId` and `lastValue`,
and `lastId` a valid ObjectId), the final query predicate is the logical
`$and` of the unaltered user filter with the synthesized resume clause:
`(f > v) OR (f == v AND _id > lastId)` when the primary direction is `1`
(ascending), and the mirrored `$lt` clause when it is `-1` (descending).
The user filter appears verbatim as the first conjunct, never merged
key-by-key. -/
theorem buildPaginatedFilter_cursor_and_clause {filter : MQuery}
    {f : String} {dir : Int} {rest : List (String × Int)} {id : String}
    {v : MValue} (hid : isValidObjectId id = true)
    (hv : jsTruthyVal v = true) :
    (dir = 1 → buildPaginatedFilter filter ((f, dir) :: rest)
        (some id) (some v)
      = .ok (.mand filter (.mor (.fgt f v)
          (.mand (.feq f v) (.fgt "_id" (.voidref id)))))) ∧
    (dir = -1 → buildPaginatedFilter filter ((f, dir) :: rest)
        (some id) (some v)
      = .ok (.mand filter (.mor (.flt f v)
          (.mand (.feq f v) (.flt "_id" (.voidref id)))))) := by
  constructor <;> intro hd <;> subst hd <;>
    rw [buildPaginatedFilter_cursor hid hv] <;> rfl

/-- Claim C1, witness: the ascending clause at a concrete cursor. -/
theorem buildPaginatedFilter_cursor_and_clause_witness :
    buildPaginatedFilter .mtrue [("date", 1)]
      (some "0000000000000000000000aa") (some (.vint 5))
      = .ok (.mand .mtrue (.mor (.fgt "date" (.vint 5))
          (.mand (.feq "date" (.vint 5))
            (.fgt "_id" (.voidref "0000000000000000000000aa"))))) :=
  (buildPaginatedFilter_cursor_and_clause (by decide) (by decide)).1 rfl

/-- Claim C2, counterexample: the handler never appends the `_id` tiebreak
to the sort it sends to the store.  Two documents tied on `date`, stored in
decreasing `_id` order, are returned in collection order — the larger
ObjectId first — not in the `( date asc, _id asc )` order the claim
asserts. -/
theorem paginatedQuery_tie_not_id_ordered :
    paginatedQuery [docTieA, docTieB] .mtrue [("date", 1)] 5 none none
      = .ok [docTieA, docTieB] false 2 none ∧
    strLt docTieB.oid docTieA.oid = true := ⟨by decide, by decide⟩

/-- Claim C2, amended: the fetch is ordered by exactly the user-supplied
sort specification — the page returned by a successful `paginated-query`
call is the `limit`-prefix of the matching documents sorted by the given
specification alone, ties left in the store's underlying order; no
tiebreak field is implicitly appended. -/
theorem paginatedQuery_results_from_given_sort {coll : List Doc}
    {filter pf : MQuery} {sort : List (String × Int)} {limit : Nat}
    {lastId : Option String} {lastValue : Option MValue} {results : List Doc}
    {hasMore : Bool} {count : Nat} {cursor : Option (String × MValue)}
    (hb : buildPaginatedFilter filter sort lastId lastValue = .ok pf)
    (hq : paginatedQuery coll filter sort limit lastId lastValue
      = .ok results hasMore count cursor) :
    results = (sortDocs sort (coll.filter fun d => evalQ pf d)).take limit :=
  pageResults_eq_take hb hq

/-- Claim C2, amended, witness: a concrete page equal to the prefix of the
user-sort ordering. -/
theorem paginatedQuery_results_from_given_sort_witness :
    ([docAsc1] : List Doc) =
      (sortDocs [("date", 1)]
        (([docAsc2, docAsc1] : List Doc).filter fun d =>
          evalQ .mtrue d)).take 1 :=
  @paginatedQuery_results_from_given_sort [docAsc2, docAsc1] .mtrue .mtrue
    [("date", 1)] 1 none none [docAsc1] true 1
    (some ("0000000000000000000000aa", .vint 1)) (by rfl) (by decide)

/-- Claim C3: the fetch requests exactly `limit + 1` documents; `hasMore`
holds exactly when the fetch returned more than `limit` documents; when
`hasMore` holds the sentinel (last fetched document) is dropped, otherwise
the fetch is returned whole; the returned page never exceeds `limit`
documents. -/
theorem paginatedQuery_overfetch_and_trim {coll : List Doc}
    {filter pf : MQuery} {sort : List (String × Int)} {limit : Nat}
    {lastId : Option String} {lastValue : Option MValue} {results : List Doc}
    {hasMore : Bool} {count : Nat} {cursor : Option (String × MValue)}
    (hb : buildPaginatedFilter filter sort lastId lastValue = .ok pf)
    (hq : paginatedQuery coll filter sort limit lastId lastValue
      = .ok results hasMore count cursor) :
    (findDocs coll pf sort (limit + 1)).length ≤ limit + 1 ∧
    (hasMore = true ↔ limit < (findDocs coll pf sort (limit + 1)).length) ∧
    (hasMore = true → results = (findDocs coll pf sort (limit + 1)).dropLast) ∧
    (hasMore = false → results = findDocs coll pf sort (limit + 1)) ∧
    results.length ≤ limit := by
  unfold paginatedQuery at hq
  rw [hb] at hq
  dsimp only at hq
  injection hq with h1 h2 h3 h4
  subst h2
  subst h1
  refine ⟨?_, ?_, ?_, ?_, ?_⟩
  · unfold findDocs
    rw [List.length_take]
    exact Nat.min_le_left _ _
  · simp
  · intro hm
    rw [if_pos hm]
  · intro hm
    rw [if_neg (by simp [hm])]
  · by_cases h : (findDocs coll pf sort (limit + 1)).length > limit
    · rw [if_pos (decide_eq_true h)]
      rw [List.length_dropLast]
      unfold findDocs at h ⊢
      rw [List.length_take] at h ⊢
      omega
    · rw [if_neg (by simpa using h)]
      unfold findDocs at h ⊢
      rw [List.length_take] at h ⊢
      omega

/-- Claim C3, witness: the overfetch-and-trim facts at a concrete page with
`limit = 1` over two documents. -/
theorem paginatedQuery_overfetch_and_trim_witness :
    (findDocs [docAsc2, docAsc1] .mtrue [("date", 1)] 2).length ≤ 2 ∧
    (true = true ↔ 1 < (findDocs [docAsc2, docAsc1] .mtrue
      [("date", 1)] 2).length) ∧
    (true = true → [docAsc1] = (findDocs [docAsc2, docAsc1] .mtrue
      [("date", 1)] 2).dropLast) ∧
    (true = false → [docAsc1] = findDocs [docAsc2, docAsc1] .mtrue
      [("date", 1)] 2) ∧
    ([docAsc1] : List Doc).length ≤ 1 :=
  @paginatedQuery_overfetch_and_trim [docAsc2, docAsc1] .mtrue .mtrue
    [("date", 1)] 1 none none [docAsc1] true 1
    (some ("0000000000000000000000aa", .vint 1)) (by rfl) (by decide)

/-- Claim C4, counterexample: with two documents tied on the sort field and
stored in decreasing `_id` order, following the cursor loop with `limit = 1`
returns only the first document — the tie-sibling is skipped, so the
concatenation of all pages is not the full matching set. -/
theorem runPages_tie_omits_document :
    runPages 3 [docTieA, docTieB] .mtrue [("date", 1)] 1 none none
      = [docTieA] ∧
    ([docTieA, docTieB] : List Doc).filter (fun d => evalQ .mtrue d)
      = [docTieA, docTieB] ∧
    ([docTieA] : List Doc) ≠ [docTieA, docTieB] :=
  ⟨by decide, by decide, by decide⟩

/-- Claim C4, amended: over any collection (in any underlying order) whose
filter-matching documents have pairwise-distinct (hence tie-free),
JavaScript-truthy primary sort-field values and valid ObjectIds, following
`nextCursor` until `hasMore` is false with a positive limit concatenates to
exactly the full sorted result set implied by the filter and the sort
specification — no document is duplicated or omitted, and the document a
cursor was taken from is never re-included. -/
theorem runPages_complete {coll : List Doc} {filter : MQuery} {f : String}
    {dir : Int} {rest : List (String × Int)} {limit : Nat}
    (hlim : 0 < limit)
    (hdist : (coll.filter fun x => evalQ filter x).Pairwise
      fun a b => dGet a f ≠ dGet b f)
    (htr : ∀ x ∈ coll.filter fun x => evalQ filter x,
      jsTruthyVal (dGet x f) = true)
    (hvid : ∀ x ∈ coll.filter fun x => evalQ filter x,
      isValidObjectId x.oid = true) :
    runPages ((coll.filter fun x => evalQ filter x).length + 1) coll filter
      ((f, dir) :: rest) limit none none
      = sortDocs ((f, dir) :: rest)
          (coll.filter fun x => evalQ filter x) := by
  obtain ⟨m, rfl⟩ : ∃ m, limit = m + 1 := ⟨limit - 1, by omega⟩
  have hb0 : buildPaginatedFilter filter ((f, dir) :: rest) none none
      = .ok filter := buildPaginatedFilter_no_cursor rfl
  have hstrict : (sortDocs ((f, dir) :: rest)
      (coll.filter fun x => evalQ filter x)).Pairwise
      fun a b => keyLt dir (dGet a f) (dGet b f) = true :=
    pairwise_keyLt_of_sorted
      (sortDocs_sorted ((f, dir) :: rest)
        (coll.filter fun x => evalQ filter x))
      (((sortDocs_perm ((f, dir) :: rest)
        (coll.filter fun x => evalQ filter x)).pairwise_iff
        fun hxy => hxy.symm).2 hdist)
  have hSlen : (sortDocs ((f, dir) :: rest)
      (coll.filter fun x => evalQ filter x)).length
      = (coll.filter fun x => evalQ filter x).length :=
    (sortDocs_perm ((f, dir) :: rest)
      (coll.filter fun x => evalQ filter x)).length_eq
  by_cases hcase : (sortDocs ((f, dir) :: rest)
      (coll.filter fun x => evalQ filter x)).length ≤ m + 1
  · have hpage := paginatedQuery_ok_small hb0 hcase
    unfold runPages
    rw [hpage]
    simp
  · push_neg at hcase
    set S := sortDocs ((f, dir) :: rest)
      (coll.filter fun x => evalQ filter x) with hSdef
    have hm : m < S.length := by omega
    have hsplit : S = S.take m ++ S.get ⟨m, hm⟩ :: S.drop (m + 1) := by
      have h1 : S.take (m + 1) = S.take m ++ [S.get ⟨m, hm⟩] := by
        rw [List.take_succ]
        congr 1
        rw [List.getElem?_eq_getElem hm]
        rfl
      have h2 : S = S.take (m + 1) ++ S.drop (m + 1) :=
        (List.take_append_drop (m + 1) S).symm
      rw [h1] at h2
      rw [List.append_assoc] at h2
      exact h2
    have hR : S.drop (m + 1) ≠ [] := by
      intro hnil
      have := List.length_drop (m + 1) S
      rw [hnil] at this
      simp at this
      omega
    have hS2 : sortDocs ((f, dir) :: rest)
        (coll.filter fun x => evalQ filter x)
        = S.take m ++ S.get ⟨m, hm⟩ :: S.drop (m + 1) := hsplit
    have hPlen : (S.take m).length = m := by
      rw [List.length_take]
      omega
    have hpage := paginatedQuery_ok_big hb0 hS2 hPlen hR
    unfold runPages
    rw [hpage]
    simp only [if_true]
    have hrec := @runPages_cursor coll filter f dir rest m hdist hstrict
      htr hvid (coll.filter fun x => evalQ filter x).length
      (S.take m) (S.get ⟨m, hm⟩) (S.drop (m + 1)) hsplit
      (by
        have := List.length_drop (m + 1) S
        omega)
    have hf : primarySortField ((f, dir) :: rest) = f := rfl
    rw [hf, hrec]
    conv => rhs; rw [hsplit]
    simp

/-- Claim C4, amended, witness: the roundtrip over three documents with
distinct truthy sort values, stored out of sort order, with `limit = 1`. -/
theorem runPages_complete_witness :
    runPages ((([docAsc2, docAsc3, docAsc1] : List Doc).filter fun x =>
        evalQ .mtrue x).length + 1)
      [docAsc2, docAsc3, docAsc1] .mtrue [("date", 1)] 1 none none
      = sortDocs [("date", 1)]
          (([docAsc2, docAsc3, docAsc1] : List Doc).filter fun x =>
            evalQ .mtrue x) :=
  runPages_complete (by decide) (by decide) (by decide) (by decide)

/-- Claim C5, counterexample: at `limit = 0` over a nonempty matching set
the handler fetches one document, sets `hasMore = true`, pops it, and —
the trimmed page being empty — emits no cursor: `hasMore = true` is
returned together with `nextCursor = none`. -/
theorem paginatedQuery_zero_limit_inconsistent_metadata :
    paginatedQuery [docTieA] .mtrue [("date", 1)] 0 none none
      = .ok [] true 0 none := by decide

/-- Claim C5, amended: for every call with a positive limit, a successful
result has consistent pagination metadata — `hasMore = true` exactly when
the next cursor is present.  An error result carries no page at all by
construction of the result type. -/
theorem paginatedQuery_metadata_consistent {coll : List Doc}
    {filter : MQuery} {sort : List (String × Int)} {limit : Nat}
    {lastId : Option String} {lastValue : Option MValue} {results : List Doc}
    {hasMore : Bool} {count : Nat} {cursor : Option (String × MValue)}
    (hlim : 0 < limit)
    (hq : paginatedQuery coll filter sort limit lastId lastValue
      = .ok results hasMore count cursor) :
    hasMore = true ↔ cursor.isSome = true := by
  cases hbq : buildPaginatedFilter filter sort lastId lastValue with
  | error msg =>
    unfold paginatedQuery at hq
    rw [hbq] at hq
    exact absurd hq (by simp)
  | ok pf =>
    unfold paginatedQuery findDocs at hq
    rw [hbq] at hq
    dsimp only at hq
    rw [results_trim] at hq
    injection hq with h1 h2 h3 h4
    by_cases h : limit <
        (sortDocs sort (coll.filter fun d => evalQ pf d)).length
    · have hdec : decide
          (((sortDocs sort (coll.filter fun d => evalQ pf d)).take
            (limit + 1)).length > limit) = true := by
        rw [List.length_take]
        exact decide_eq_true (by omega)
      rw [hdec] at h2
      have hne : (sortDocs sort (coll.filter fun d => evalQ pf d)).take limit
          ≠ [] := by
        intro hnil
        have hl := congrArg List.length hnil
        rw [List.length_take] at hl
        simp only [List.length_nil] at hl
        rcases Nat.min_eq_zero_iff.1 hl with h0 | h0 <;> omega
      obtain ⟨x, hx⟩ :=
        Option.isSome_iff_exists.1 (List.getLast?_isSome.2 hne)
      rw [hx] at h4
      dsimp only at h4
      rw [if_pos hdec] at h4
      rw [← h2, ← h4]
      simp
    · have hdec : decide
          (((sortDocs sort (coll.filter fun d => evalQ pf d)).take
            (limit + 1)).length > limit) = false := by
        rw [List.length_take]
        exact decide_eq_false (by omega)
      rw [hdec] at h2
      cases hgl : ((sortDocs sort (coll.filter fun d => evalQ pf d)).take
          limit).getLast? with
      | none =>
        rw [hgl] at h4
        dsimp only at h4
        rw [← h2, ← h4]
        simp
      | some x =>
        rw [hgl] at h4
        dsimp only at h4
        have hcond : ¬(((sortDocs sort
            (coll.filter fun d => evalQ pf d)).take
            (limit + 1)).length > limit) := by
          rw [List.length_take]
          omega
        rw [if_neg (by simpa using hcond)] at h4
        rw [← h2, ← h4]
        simp

/-- Claim C5, amended, witness: a concrete page with `hasMore = true` and a
present cursor. -/
theorem paginatedQuery_metadata_consistent_witness :
    true = true ↔
      (some (("0000000000000000000000aa" : String), MValue.vint 1)).isSome
        = true :=
  @paginatedQuery_metadata_consistent [docAsc1, docAsc2] .mtrue
    [("date", 1)] 1 none none [docAsc1] true 1
    (some ("0000000000000000000000aa", .vint 1)) (by decide) (by decide)

/-- Claim C6, counterexample: a call with an empty sort specification does
not fail with `MissingSortSpec` — it returns a successful page. -/
theorem paginatedQuery_empty_sort_returns_page :
    paginatedQuery [docTieA] .mtrue [] 20 none none
      = .ok [docTieA] false 1 none := by decide

/-- Claim C6, amended: a sort specification with zero fields is not
rejected; the cursor-less call succeeds, returning the `limit`-prefix of
the matching documents in the store's underlying order (the empty sort
does not reorder).  No `MissingSortSpec` error exists in the code. -/
theorem paginatedQuery_empty_sort_succeeds (coll : List Doc)
    (filter : MQuery) (limit : Nat) :
    ∃ hasMore count cursor, paginatedQuery coll filter [] limit none none =
      .ok ((coll.filter fun d => evalQ filter d).take limit)
        hasMore count cursor := by
  have hb0 : buildPaginatedFilter filter [] none none = .ok filter := rfl
  obtain ⟨r, h, c, cur, hres⟩ :=
    @pq_not_error_of_ok_build coll filter filter [] limit none none hb0
  have hr := pageResults_eq_take hb0 hres
  rw [sortDocs_nil] at hr
  exact ⟨h, c, cur, by rw [hres, hr]⟩

/-- Claim C7, counterexample: a sort direction that is neither `1` nor `-1`
(here `0`) does not fail with `InvalidSortDirection`; the builder proceeds
and synthesizes the descending (`$lt`) clause, and the whole operation
returns a successful result. -/
theorem buildPaginatedFilter_zero_dir_proceeds_desc :
    buildPaginatedFilter .mtrue [("date", (0 : Int))]
        (some "000000000000000000000002") (some (.vint 5))
      = .ok (.mand .mtrue (.mor (.flt "date" (.vint 5))
        (.mand (.feq "date" (.vint 5))
          (.flt "_id" (.voidref "000000000000000000000002"))))) ∧
    paginatedQuery [docTieA, docTieB] .mtrue [("date", (0 : Int))] 20
      (some "000000000000000000000002") (some (.vint 4))
      = .ok [] false 0 none := ⟨rfl, by decide⟩

/-- Claim C7, amended: every direction other than `1` — including malformed
values such as `0` — falls into the `else` branch of the handler and is
treated as descending when the resume clause is synthesized; no
`InvalidSortDirection` error is ever produced. -/
theorem buildPaginatedFilter_nonasc_dir_descends {filter : MQuery}
    {f : String} {dir : Int} {rest : List (String × Int)} {id : String}
    {v : MValue} (hdir : dir ≠ 1) (hid : isValidObjectId id = true)
    (hv : jsTruthyVal v = true) :
    buildPaginatedFilter filter ((f, dir) :: rest) (some id) (some v) =
      .ok (.mand filter (.mor (.flt f v)
        (.mand (.feq f v) (.flt "_id" (.voidref id))))) := by
  rw [buildPaginatedFilter_cursor hid hv]
  have hb : (dir == 1) = false := by simp [hdir]
  simp [resumeClause, hb]

/-- Claim C7, amended, witness: direction `0` yields the descending
clause. -/
theorem buildPaginatedFilter_nonasc_dir_descends_witness :
    buildPaginatedFilter .mtrue [("x", (0 : Int))]
        (some "000000000000000000000001") (some (.vint 7))
      = .ok (.mand .mtrue (.mor (.flt "x" (.vint 7))
        (.mand (.feq "x" (.vint 7))
          (.flt "_id" (.voidref "000000000000000000000001"))))) :=
  buildPaginatedFilter_nonasc_dir_descends (by decide) (by decide)
    (by decide)

/-- Claim C8, counterexample: a call with `limit = 1001`, above the claimed
maximum of 1000, succeeds normally — no `LimitExceeded` error exists in
the `paginated-query` handler (the 1000 cap lives only in the
`MongoOptionsSchema` of the separate tool set, which `paginated-query`
does not use). -/
theorem paginatedQuery_limit_1001_succeeds :
    paginatedQuery [docTieA] .mtrue [("date", 1)] 1001 none none
      = .ok [docTieA] false 1 none := by decide

/-- Claim C8, amended: no maximum page size is enforced: every cursor-less
call, with any limit above the claimed bound of 1000, returns a successful
page computed with that limit as-is. -/
theorem paginatedQuery_no_limit_cap {coll : List Doc} {filter : MQuery}
    {sort : List (String × Int)} {limit : Nat} (h : 1000 < limit) :
    ∃ results hasMore count cursor,
      paginatedQuery coll filter sort limit none none
        = .ok results hasMore count cursor := by
  have hb0 : buildPaginatedFilter filter sort none none = .ok filter :=
    @buildPaginatedFilter_no_cursor filter sort none none rfl
  exact pq_not_error_of_ok_build hb0

/-- Claim C8, amended, witness: a successful call at `limit = 1001`. -/
theorem paginatedQuery_no_limit_cap_witness :
    ∃ results hasMore count cursor,
      paginatedQuery [docTieA] .mtrue [("date", 1)] 1001 none none
        = .ok results hasMore count cursor :=
  paginatedQuery_no_limit_cap (by decide)

/-- Claim C9: a supplied cursor whose identifier segment is not a valid
ObjectId (with a truthy `lastValue`, so the cursor is actually consumed)
makes the whole operation return the explicit invalid-ObjectId error
result — a structured error, not an uncaught fault. -/
theorem paginatedQuery_invalid_cursor_id_errors {coll : List Doc}
    {filter : MQuery} {sort : List (String × Int)} {limit : Nat}
    {id : String} {v : MValue} (hne : (id == "") = false)
    (hv : jsTruthyVal v = true) (hbad : isValidObjectId id = false) :
    paginatedQuery coll filter sort limit (some id) (some v)
      = .error ("Invalid ObjectId format: " ++ id) := by
  unfold paginatedQuery buildPaginatedFilter safeObjectId
  simp [jsTruthyOptStr, jsTruthyOptVal, hne, hv, hbad]

/-- Claim C9, witness: the id segment `"not-an-id"` produces the error
result. -/
theorem paginatedQuery_invalid_cursor_id_errors_witness :
    paginatedQuery [docTieA] .mtrue [("date", 1)] 20 (some "not-an-id")
        (some (.vint 1))
      = .error ("Invalid ObjectId format: " ++ "not-an-id") :=
  paginatedQuery_invalid_cursor_id_errors (by decide) (by decide)
    (by decide)

/-- Claim C10: when `lastId` is falsy or `lastValue` is falsy (absent,
null, `0`, the empty string, or `false`), the cursor is silently ignored:
the built predicate is the unchanged user filter and the whole call is
identical to a first-page call with no cursor — so a legitimate cursor
whose sort value is `0` or `""` restarts pagination from the beginning,
with no error reported. -/
theorem paginatedQuery_falsy_cursor_ignored {coll : List Doc}
    {filter : MQuery} {sort : List (String × Int)} {limit : Nat}
    {lastId : Option String} {lastValue : Option MValue}
    (h : jsTruthyOptStr lastId = false ∨ jsTruthyOptVal lastValue = false) :
    buildPaginatedFilter filter sort lastId lastValue = .ok filter ∧
    paginatedQuery coll filter sort limit lastId lastValue
      = paginatedQuery coll filter sort limit none none := by
  have hg : (jsTruthyOptStr lastId && jsTruthyOptVal lastValue) = false := by
    rcases h with h | h <;> simp [h]
  refine ⟨buildPaginatedFilter_no_cursor hg, ?_⟩
  unfold paginatedQuery
  rw [buildPaginatedFilter_no_cursor hg,
    @buildPaginatedFilter_no_cursor filter sort none none rfl]

/-- Claim C10, witness: a valid `lastId` with `lastValue = 0` is ignored
and the call equals the cursor-less first-page call. -/
theorem paginatedQuery_falsy_cursor_ignored_witness :
    buildPaginatedFilter .mtrue [("date", 1)]
        (some "000000000000000000000002") (some (.vint 0)) = .ok .mtrue ∧
    paginatedQuery [docTieA, docTieB] .mtrue [("date", 1)] 20
        (some "000000000000000000000002") (some (.vint 0))
      = paginatedQuery [docTieA, docTieB] .mtrue [("date", 1)] 20
          none none :=
  paginatedQuery_falsy_cursor_ignored (Or.inr (by decide))
